import Mathlib

/-!
Verification development for the cryptools lot/movement accounting engine.

The repository's entry point (`src/main.rs`) wires command-line settings into
the costing engine and the export steps; the engine itself (modules
`account`, `transaction`, `core_functions`, `create_lots_mvmts`, ...) is
declared in `main.rs` but its source files are not present under `src/`, so
the engine is modelled here from the specification (sections 3, 4 and 7 of
the design document).  Quantities and monetary amounts are exact rationals:
the spec mandates exact decimal arithmetic with no floating point.
-/

namespace Cryptools

/-- Modelled from the spec: error taxonomy of section 7 (the repository's
error types live in the missing `core_functions` module). -/
inductive Err where
  | arithmetic
  | invalidQuantity
  | insufficientLotBalance
  | insufficientFunds
  | unknownCurrency
  | chronologyViolation
deriving DecidableEq

/-- Modelled from the spec: a Lot (section 3) — a quantity of one currency
acquired at a specific instant, with acquisition date, original quantity,
remaining quantity, cost basis for the original quantity in home currency,
and a like-kind carryover flag.  The basis date may differ from the
acquisition date when the basis originated from a like-kind carryover. -/
structure Lot where
  basis_date : Nat
  acquisition_date : Nat
  original_quantity : ℚ
  remaining_quantity : ℚ
  cost_basis : ℚ
  is_like_kind_carryover : Bool
deriving DecidableEq

/-- Modelled from the spec: an Account (section 3) — one per currency,
holding an ordered sequence of Lots (insertion order = creation order) and
a running balance. -/
structure Account where
  lots : List Lot
  balance : ℚ
deriving DecidableEq

/-- Modelled from the spec: a Movement (section 3) — one depletion (or the
full creation) of a Lot quantity: lot reference, quantity moved, and role
(inflow-create vs outflow-deplete). -/
structure Movement where
  lot_index : Nat
  quantity : ℚ
  inflow : Bool
deriving DecidableEq

/-- Modelled from the spec: a Transaction (section 3) — the enriched record
derived from one ActionRecord: movements, total proceeds, total cost basis,
realized gain/loss, and a like-kind flag. -/
structure Transaction where
  proceeds : ℚ
  cost_basis : ℚ
  gain_loss : ℚ
  is_like_kind : Bool
  movements : List Movement
deriving DecidableEq

/-- Modelled from the spec: the costing-method policy (section 4.3, design
note in section 9): a closed set of four variants. -/
inductive CostingMethod where
  | lifoByCreation
  | lifoByBasisDate
  | fifoByCreation
  | fifoByBasisDate
deriving DecidableEq

/-- Modelled from the spec and `Options::inv_costing_method` in
src/src/main.rs (lines 104-112): the selector takes values 1 through 4. -/
def invCostingMethodFromNat : Nat → Option CostingMethod
  | 1 => some CostingMethod.lifoByCreation
  | 2 => some CostingMethod.lifoByBasisDate
  | 3 => some CostingMethod.fifoByCreation
  | 4 => some CostingMethod.fifoByBasisDate
  | _ => none

/-- Modelled from the spec: the Settings value handed to the core
(section 6): home currency, optional like-kind cutoff date, costing method. -/
structure Settings where
  home_currency : Nat
  lk_cutoff_date : Option Nat
  method : CostingMethod
deriving DecidableEq

/-- Modelled from the spec: an ActionRecord (section 3) — one imported
transaction line.  Acquisitions (income/transfer-in), disposals
(expense/transfer-out/sale for fiat) and trades (disposal plus simultaneous
acquisition) with the home-currency value involved. -/
inductive ActionRecord where
  | acquire (date : Nat) (cur : Nat) (qty value : ℚ)
  | dispose (date : Nat) (cur : Nat) (qty proceeds : ℚ)
  | trade (date : Nat) (outCur : Nat) (outQty : ℚ) (inCur : Nat) (inQty value : ℚ)
deriving DecidableEq

/-- The date of an ActionRecord. -/
def ActionRecord.date : ActionRecord → Nat
  | .acquire d _ _ _ => d
  | .dispose d _ _ _ => d
  | .trade d _ _ _ _ _ => d

/-- Stable insertion of one element into a list sorted by `le`. -/
def insertLe {α : Type} (le : α → α → Bool) (a : α) : List α → List α
  | [] => [a]
  | b :: bs => if le a b then a :: b :: bs else b :: insertLe le a bs

/-- Stable insertion sort by `le`. -/
def sortLe {α : Type} (le : α → α → Bool) : List α → List α
  | [] => []
  | a :: as => insertLe le a (sortLe le as)

/-- Modelled from the spec: the lot ordering of each costing method
(section 4.3), on (creation index, lot) pairs; ties broken by creation
order (sort stability supplies the lot-id tie-break). -/
def lotLe (m : CostingMethod) (a b : Nat × Lot) : Bool :=
  match m with
  | CostingMethod.lifoByCreation => decide (b.1 ≤ a.1)
  | CostingMethod.fifoByCreation => decide (a.1 ≤ b.1)
  | CostingMethod.lifoByBasisDate =>
      decide (b.2.basis_date < a.2.basis_date) ||
        (decide (a.2.basis_date = b.2.basis_date) && decide (a.1 ≤ b.1))
  | CostingMethod.fifoByBasisDate =>
      decide (a.2.basis_date < b.2.basis_date) ||
        (decide (a.2.basis_date = b.2.basis_date) && decide (a.1 ≤ b.1))

/-- The currently-open lots of an account (remaining quantity > 0), paired
with their creation index. -/
def openLots (a : Account) : List (Nat × Lot) :=
  a.lots.enum.filter (fun p => decide (0 < p.2.remaining_quantity))

/-- Total open-lot quantity of an account. -/
def totalOpenQuantity (a : Account) : ℚ :=
  ((openLots a).map (fun p => p.2.remaining_quantity)).sum

/-- Modelled from the spec: the Lot Selector's walk (section 4.3): consume
`min(remaining_quantity, outstanding_need)` from each lot in the sorted
sequence until the cumulative consumed quantity equals the need; fail with
`InsufficientFundsError` when the lots run out first. -/
def consumeLots : ℚ → List (Nat × Lot) → Except Err (List (Nat × ℚ))
  | need, [] => if need ≤ 0 then Except.ok [] else Except.error Err.insufficientFunds
  | need, (i, l) :: rest =>
      if need ≤ 0 then Except.ok []
      else
        match consumeLots (need - min l.remaining_quantity need) rest with
        | Except.ok tail => Except.ok ((i, min l.remaining_quantity need) :: tail)
        | Except.error e => Except.error e

/-- Modelled from the spec: the Lot Selector (section 4.3): sort the open
lots by the configured method and walk them. -/
def selectLots (m : CostingMethod) (a : Account) (q : ℚ) : Except Err (List (Nat × ℚ)) :=
  consumeLots q (sortLe (lotLe m) (openLots a))

/-- Unit basis of a lot: cost basis divided by original quantity. -/
def unitBasis (l : Lot) : ℚ := l.cost_basis / l.original_quantity

/-- Modelled from the spec: cost basis of a disposal (section 4.4): sum over
consumed (lot, quantity) pairs of `lot.unit_basis × quantity`. -/
def disposalCostBasis (a : Account) (pairs : List (Nat × ℚ)) : ℚ :=
  (pairs.map (fun p =>
    match a.lots.get? p.1 with
    | some l => unitBasis l * p.2
    | none => 0)).sum

/-- Modelled from the spec: `deplete_lot` (section 4.2): decreases
`remaining_quantity`, fails with `InsufficientLotBalanceError` if the
quantity exceeds the remainder, and decreases the account running balance. -/
def deplete_lot (a : Account) (i : Nat) (q : ℚ) : Except Err Account :=
  match a.lots.get? i with
  | none => Except.error Err.insufficientLotBalance
  | some l =>
      if l.remaining_quantity < q then Except.error Err.insufficientLotBalance
      else
        Except.ok
          { lots := a.lots.set i { l with remaining_quantity := l.remaining_quantity - q }
            balance := a.balance - q }

/-- Apply a list of (lot index, quantity) depletions to an account in order. -/
def applyDepletions (a : Account) : List (Nat × ℚ) → Except Err Account
  | [] => Except.ok a
  | p :: ps =>
      match deplete_lot a p.1 p.2 with
      | Except.ok a1 => applyDepletions a1 ps
      | Except.error e => Except.error e

/-- Modelled from the spec: `open_lot` (section 4.2): appends a new Lot with
`remaining_quantity = original_quantity = quantity`, failing with
`InvalidQuantityError` on a non-positive quantity; the running balance
grows by the quantity. -/
def open_lot (a : Account) (acqDate basisDate : Nat) (q basis : ℚ) (lk : Bool) :
    Except Err Account :=
  if q ≤ 0 then Except.error Err.invalidQuantity
  else
    Except.ok
      { lots := a.lots ++
          [{ basis_date := basisDate, acquisition_date := acqDate,
             original_quantity := q, remaining_quantity := q,
             cost_basis := basis, is_like_kind_carryover := lk }]
        balance := a.balance + q }

/-- The ledger: per-currency accounts, created lazily on first reference;
currencies are identified by numeric codes the importer assigns. -/
abbrev Ledger : Type := List (Nat × Account)

/-- Look an account up by currency. -/
def findAccount (led : Ledger) (cur : Nat) : Option Account :=
  (led.find? (fun p => decide (p.1 = cur))).map Prod.snd

/-- The empty account a currency starts with. -/
def emptyAccount : Account := { lots := [], balance := 0 }

/-- The account for a currency, an empty one when not yet created. -/
def getAccount (led : Ledger) (cur : Nat) : Account :=
  (findAccount led cur).getD emptyAccount

/-- Store an account under a currency, replacing the existing entry or
appending a fresh one. -/
def updateAccount : Ledger → Nat → Account → Ledger
  | [], cur, a => [(cur, a)]
  | p :: ps, cur, a =>
      if p.1 = cur then (cur, a) :: ps else p :: updateAccount ps cur a

/-- Modelled from the spec: the Like-Kind Rule's applicability test
(section 4.4): the record date is on or before the configured cutoff date
and both legs are crypto-to-crypto (neither is the home/fiat currency). -/
def likeKindApplies (s : Settings) (date : Nat) (outCur inCur : Nat) : Bool :=
  match s.lk_cutoff_date with
  | none => false
  | some c =>
      decide (date ≤ c) && decide (outCur ≠ s.home_currency) &&
        decide (inCur ≠ s.home_currency)

/-- Basis date of the first consumed lot of a disposal, or the fallback
date when nothing was consumed. -/
def firstConsumedBasisDate (a : Account) (pairs : List (Nat × ℚ)) (fallback : Nat) : Nat :=
  match pairs with
  | [] => fallback
  | p :: _ =>
      match a.lots.get? p.1 with
      | some l => l.basis_date
      | none => fallback

/-- Modelled from the spec: the Costing Engine's running state — the ledger,
the date of the previously processed record, and the Transactions produced
so far. -/
structure EngineState where
  ledger : Ledger
  lastDate : Option Nat
  transactions : List Transaction
deriving DecidableEq

/-- Chronology check (section 4.4): a record may not precede the previously
processed record. -/
def chronologyOk (st : EngineState) (d : Nat) : Bool :=
  match st.lastDate with
  | none => true
  | some prev => decide (prev ≤ d)

/-- Modelled from the spec: one step of the Costing Engine (section 4.4):
check chronology, then create lots/movements/transactions for the record,
consulting the Lot Selector for disposals and applying the Like-Kind Rule
to qualifying trades.  Every failure aborts the step before any state is
produced. -/
def processRecord (s : Settings) (st : EngineState) (r : ActionRecord) :
    Except Err EngineState :=
  if chronologyOk st r.date then
    match r with
    | ActionRecord.acquire date cur q v =>
        let a := getAccount st.ledger cur
        match open_lot a date date q v false with
        | Except.error e => Except.error e
        | Except.ok a1 =>
            Except.ok
              { ledger := updateAccount st.ledger cur a1
                lastDate := some date
                transactions := st.transactions ++
                  [{ proceeds := 0, cost_basis := 0, gain_loss := 0,
                     is_like_kind := false,
                     movements := [{ lot_index := a.lots.length, quantity := q,
                                     inflow := true }] }] }
    | ActionRecord.dispose date cur q proceeds =>
        let a := getAccount st.ledger cur
        match selectLots s.method a q with
        | Except.error e => Except.error e
        | Except.ok pairs =>
            let basis := disposalCostBasis a pairs
            match applyDepletions a pairs with
            | Except.error e => Except.error e
            | Except.ok a1 =>
                Except.ok
                  { ledger := updateAccount st.ledger cur a1
                    lastDate := some date
                    transactions := st.transactions ++
                      [{ proceeds := proceeds, cost_basis := basis,
                         gain_loss := proceeds - basis, is_like_kind := false,
                         movements := pairs.map (fun p =>
                           { lot_index := p.1, quantity := p.2, inflow := false }) }] }
    | ActionRecord.trade date outCur outQty inCur inQty v =>
        let a := getAccount st.ledger outCur
        match selectLots s.method a outQty with
        | Except.error e => Except.error e
        | Except.ok pairs =>
            let basis := disposalCostBasis a pairs
            match applyDepletions a pairs with
            | Except.error e => Except.error e
            | Except.ok a1 =>
                let led1 := updateAccount st.ledger outCur a1
                let lk := likeKindApplies s date outCur inCur
                let newBasis := if lk then basis else v
                let newBDate := if lk then firstConsumedBasisDate a pairs date else date
                let b := getAccount led1 inCur
                match open_lot b date newBDate inQty newBasis lk with
                | Except.error e => Except.error e
                | Except.ok b1 =>
                    Except.ok
                      { ledger := updateAccount led1 inCur b1
                        lastDate := some date
                        transactions := st.transactions ++
                          [{ proceeds := v, cost_basis := basis,
                             gain_loss := v - basis, is_like_kind := lk,
                             movements := pairs.map (fun p =>
                               { lot_index := p.1, quantity := p.2, inflow := false }) ++
                               [{ lot_index := b.lots.length, quantity := inQty,
                                  inflow := true }] }] }
  else Except.error Err.chronologyViolation

/-- The engine's initial state: empty ledger, no previous record. -/
def initState : EngineState := { ledger := [], lastDate := none, transactions := [] }

/-- Process a batch of ActionRecords from a given state, aborting on the
first error. -/
def processFrom (s : Settings) : EngineState → List ActionRecord → Except Err EngineState
  | st, [] => Except.ok st
  | st, r :: rs =>
      match processRecord s st r with
      | Except.ok st1 => processFrom s st1 rs
      | Except.error e => Except.error e

/-- Modelled from the spec: `import_and_process_final` over an already
normalized batch — one pass over the ordered ActionRecord sequence from the
empty initial state. -/
def processAll (s : Settings) (rs : List ActionRecord) : Except Err EngineState :=
  processFrom s initState rs

/-- Realized gain/loss total: the sum of `gain_loss` over transactions not
flagged like-kind (section 4.4: a like-kind transaction is excluded from
the realized total). -/
def realizedTotal (txs : List Transaction) : ℚ :=
  ((txs.filter (fun t => !t.is_like_kind)).map (fun t => t.gain_loss)).sum

/-- Dispatch lot selection through a raw selector value 1-4 the way the
engine receives it from `Options::inv_costing_method`. -/
def selectLotsBySelector (n : Nat) (a : Account) (q : ℚ) : Except Err (List (Nat × ℚ)) :=
  match invCostingMethodFromNat n with
  | some m => selectLots m a q
  | none => Except.error Err.arithmetic

/-- The output steps `main` (src/src/main.rs lines 150-219) can perform
after processing: the automatic export-all, and the interactive print
menu's export. -/
inductive Step where
  | exportAll
  | printMenuExport
deriving DecidableEq

/-- The flags of `main` that drive the output phase: `settings.should_export`
and `settings.print_menu` (src/src/main.rs lines 145-148). -/
structure MainSettings where
  should_export : Bool
  print_menu : Bool
deriving DecidableEq

/-- Embeds the output phase of `main` (src/src/main.rs lines 145-219):
`should_export_all` starts as `settings.should_export` and is forced to
`false` when the print menu is requested; export-all runs only when it is
still set, and the TUI menu's export runs only when the menu is requested. -/
def mainSteps (ms : MainSettings) : List Step :=
  let should_export_all := if ms.print_menu then false else ms.should_export
  (if should_export_all then [Step.exportAll] else []) ++
    (if ms.print_menu then [Step.printMenuExport] else [])

/-- Embeds the run structure of `main` (src/src/main.rs lines 136-219): the
import-and-process step runs first and its error propagates (the `?`
operator) before any output step; only a successful batch reaches the
output phase. -/
def mainRun (s : Settings) (ms : MainSettings) (rs : List ActionRecord) :
    Except Err (EngineState × List Step) :=
  match processAll s rs with
  | Except.error e => Except.error e
  | Except.ok st => Except.ok (st, mainSteps ms)

/-- Sum of the remaining quantities over all of an account's lots. -/
def sumRemaining (a : Account) : ℚ :=
  (a.lots.map (fun l => l.remaining_quantity)).sum

/-- The account-level invariant of section 4.2: the lots' remaining
quantities sum to the running balance. -/
def AccountOk (a : Account) : Prop := sumRemaining a = a.balance

/-- The ledger-level invariant: every account satisfies `AccountOk`. -/
def LedgerOk (led : Ledger) : Prop := ∀ p ∈ led, AccountOk p.2

lemma sum_map_set (f : Lot → ℚ) :
    ∀ (l : List Lot) (i : Nat) (a old : Lot), l.get? i = some old →
      ((l.set i a).map f).sum = (l.map f).sum - f old + f a := by
  intro l
  induction l with
  | nil => intro i a old h; simp at h
  | cons x xs ih =>
      intro i a old h
      cases i with
      | zero =>
          rw [List.get?_cons_zero] at h
          cases h
          simp only [List.set, List.map_cons, List.sum_cons]
          ring
      | succ j =>
          rw [List.get?_cons_succ] at h
          simp only [List.set, List.map_cons, List.sum_cons, ih j a old h]
          ring

lemma deplete_lot_ok {a : Account} {i : Nat} {q : ℚ} {a' : Account}
    (h : deplete_lot a i q = Except.ok a') :
    ∃ l, a.lots.get? i = some l ∧ ¬ l.remaining_quantity < q ∧
      a' = { lots := a.lots.set i { l with remaining_quantity := l.remaining_quantity - q }
             balance := a.balance - q } := by
  unfold deplete_lot at h
  cases hg : a.lots.get? i with
  | none => rw [hg] at h; cases h
  | some l =>
      rw [hg] at h
      simp only [] at h
      by_cases hlt : l.remaining_quantity < q
      · rw [if_pos hlt] at h; cases h
      · rw [if_neg hlt] at h
        injection h with h
        exact ⟨l, rfl, hlt, h.symm⟩

lemma deplete_lot_sum {a : Account} {i : Nat} {q : ℚ} {a' : Account}
    (h : deplete_lot a i q = Except.ok a') :
    sumRemaining a' = sumRemaining a - q ∧ a'.balance = a.balance - q := by
  obtain ⟨l, hg, _, rfl⟩ := deplete_lot_ok h
  refine ⟨?_, rfl⟩
  simp only [sumRemaining]
  rw [sum_map_set _ _ _ _ _ hg]
  simp only []
  ring

lemma applyDepletions_sum : ∀ (ps : List (Nat × ℚ)) (a a' : Account),
    applyDepletions a ps = Except.ok a' →
    sumRemaining a' = sumRemaining a - (ps.map Prod.snd).sum ∧
      a'.balance = a.balance - (ps.map Prod.snd).sum := by
  intro ps
  induction ps with
  | nil =>
      intro a a' h
      simp only [applyDepletions] at h
      injection h with h
      subst h
      simp
  | cons p ps ih =>
      intro a a' h
      simp only [applyDepletions] at h
      cases hd : deplete_lot a p.1 p.2 with
      | error e => rw [hd] at h; cases h
      | ok a1 =>
          rw [hd] at h
          obtain ⟨h1, h2⟩ := deplete_lot_sum hd
          obtain ⟨h3, h4⟩ := ih a1 a' h
          constructor
          · rw [h3, h1]; simp only [List.map_cons, List.sum_cons]; ring
          · rw [h4, h2]; simp only [List.map_cons, List.sum_cons]; ring

lemma applyDepletions_accountOk {ps : List (Nat × ℚ)} {a a' : Account}
    (hok : AccountOk a) (h : applyDepletions a ps = Except.ok a') : AccountOk a' := by
  obtain ⟨h1, h2⟩ := applyDepletions_sum ps a a' h
  unfold AccountOk at hok ⊢
  rw [h1, h2, hok]

lemma open_lot_ok {a : Account} {d bd : Nat} {q basis : ℚ} {lk : Bool} {a' : Account}
    (h : open_lot a d bd q basis lk = Except.ok a') :
    ¬ q ≤ 0 ∧
      a' = { lots := a.lots ++
               [{ basis_date := bd, acquisition_date := d, original_quantity := q,
                  remaining_quantity := q, cost_basis := basis,
                  is_like_kind_carryover := lk }]
             balance := a.balance + q } := by
  unfold open_lot at h
  by_cases hq : q ≤ 0
  · rw [if_pos hq] at h; cases h
  · rw [if_neg hq] at h
    injection h with h
    exact ⟨hq, h.symm⟩

lemma open_lot_accountOk {a : Account} {d bd : Nat} {q basis : ℚ} {lk : Bool} {a' : Account}
    (hok : AccountOk a) (h : open_lot a d bd q basis lk = Except.ok a') : AccountOk a' := by
  obtain ⟨-, rfl⟩ := open_lot_ok h
  unfold AccountOk sumRemaining at hok ⊢
  simp only [List.map_append, List.sum_append, List.map_cons, List.sum_cons, List.map_nil,
    List.sum_nil, add_zero]
  rw [hok]

lemma ledgerOk_updateAccount : ∀ (led : Ledger) (cur : Nat) (a : Account),
    LedgerOk led → AccountOk a → LedgerOk (updateAccount led cur a) := by
  intro led cur a
  induction led with
  | nil =>
      intro _ ha p hp
      simp only [updateAccount, List.mem_singleton] at hp
      subst hp; exact ha
  | cons x xs ih =>
      intro hled ha p hp
      by_cases hx : x.1 = cur
      · simp only [updateAccount, if_pos hx, List.mem_cons] at hp
        rcases hp with hp | hp
        · subst hp; exact ha
        · exact hled p (List.mem_cons_of_mem x hp)
      · simp only [updateAccount, if_neg hx, List.mem_cons] at hp
        rcases hp with hp | hp
        · subst hp; exact hled _ (List.mem_cons_self _ _)
        · exact ih (fun r hr => hled r (List.mem_cons_of_mem x hr)) ha p hp

lemma findAccount_updateAccount : ∀ (led : Ledger) (cur : Nat) (a : Account),
    findAccount (updateAccount led cur a) cur = some a := by
  intro led cur a
  induction led with
  | nil => simp [updateAccount, findAccount, List.find?]
  | cons x xs ih =>
      by_cases hx : x.1 = cur
      · simp [updateAccount, if_pos hx, findAccount, List.find?]
      · simp only [updateAccount, if_neg hx, findAccount]
        rw [List.find?_cons_of_neg]
        · exact ih
        · simp [hx]

lemma getAccount_ok {led : Ledger} (h : LedgerOk led) (cur : Nat) :
    AccountOk (getAccount led cur) := by
  unfold getAccount findAccount
  cases hf : led.find? (fun p => decide (p.1 = cur)) with
  | none => simp only [Option.map_none', Option.getD_none]; rfl
  | some p =>
      simp only [Option.map_some', Option.getD_some]
      exact h p (List.mem_of_find?_eq_some hf)

/-- The engine-state invariant: every ledger account balances against its
lots, and every transaction's recorded gain/loss is proceeds minus basis. -/
def StateOk (st : EngineState) : Prop :=
  LedgerOk st.ledger ∧
    ∀ tx ∈ st.transactions, tx.gain_loss = tx.proceeds - tx.cost_basis

lemma processRecord_stateOk {s : Settings} {st : EngineState} {r : ActionRecord}
    {st' : EngineState} (hok : StateOk st) (h : processRecord s st r = Except.ok st') :
    StateOk st' := by
  obtain ⟨hled, htx⟩ := hok
  cases r with
  | acquire date cur q v =>
      simp only [processRecord, ActionRecord.date] at h
      by_cases hc : chronologyOk st date = true
      case neg => rw [if_neg hc] at h; cases h
      rw [if_pos hc] at h
      cases ho : open_lot (getAccount st.ledger cur) date date q v false with
      | error e => rw [ho] at h; cases h
      | ok a1 =>
          rw [ho] at h
          injection h with h
          subst h
          refine ⟨?_, ?_⟩
          · exact ledgerOk_updateAccount _ _ _ hled
              (open_lot_accountOk (getAccount_ok hled cur) ho)
          · intro tx htx'
            simp only [List.mem_append, List.mem_singleton] at htx'
            rcases htx' with h1 | h1
            · exact htx tx h1
            · subst h1; norm_num
  | dispose date cur q proceeds =>
      simp only [processRecord, ActionRecord.date] at h
      by_cases hc : chronologyOk st date = true
      case neg => rw [if_neg hc] at h; cases h
      rw [if_pos hc] at h
      cases hsel : selectLots s.method (getAccount st.ledger cur) q with
      | error e => rw [hsel] at h; cases h
      | ok pairs =>
          rw [hsel] at h
          simp only [] at h
          cases happ : applyDepletions (getAccount st.ledger cur) pairs with
          | error e => rw [happ] at h; cases h
          | ok a1 =>
              rw [happ] at h
              injection h with h
              subst h
              refine ⟨?_, ?_⟩
              · exact ledgerOk_updateAccount _ _ _ hled
                  (applyDepletions_accountOk (getAccount_ok hled cur) happ)
              · intro tx htx'
                simp only [List.mem_append, List.mem_singleton] at htx'
                rcases htx' with h1 | h1
                · exact htx tx h1
                · subst h1; simp
  | trade date outCur outQty inCur inQty v =>
      simp only [processRecord, ActionRecord.date] at h
      by_cases hc : chronologyOk st date = true
      case neg => rw [if_neg hc] at h; cases h
      rw [if_pos hc] at h
      cases hsel : selectLots s.method (getAccount st.ledger outCur) outQty with
      | error e => rw [hsel] at h; cases h
      | ok pairs =>
          rw [hsel] at h
          simp only [] at h
          cases happ : applyDepletions (getAccount st.ledger outCur) pairs with
          | error e => rw [happ] at h; cases h
          | ok a1 =>
              rw [happ] at h
              simp only [] at h
              cases hb : open_lot
                  (getAccount (updateAccount st.ledger outCur a1) inCur) date
                  (if likeKindApplies s date outCur inCur then
                    firstConsumedBasisDate (getAccount st.ledger outCur) pairs date
                  else date)
                  inQty
                  (if likeKindApplies s date outCur inCur then
                    disposalCostBasis (getAccount st.ledger outCur) pairs
                  else v)
                  (likeKindApplies s date outCur inCur) with
              | error e => rw [hb] at h; cases h
              | ok b1 =>
                  rw [hb] at h
                  injection h with h
                  subst h
                  have hled1 : LedgerOk (updateAccount st.ledger outCur a1) :=
                    ledgerOk_updateAccount _ _ _ hled
                      (applyDepletions_accountOk (getAccount_ok hled outCur) happ)
                  refine ⟨?_, ?_⟩
                  · exact ledgerOk_updateAccount _ _ _ hled1
                      (open_lot_accountOk (getAccount_ok hled1 inCur) hb)
                  · intro tx htx'
                    simp only [List.mem_append, List.mem_singleton] at htx'
                    rcases htx' with h1 | h1
                    · exact htx tx h1
                    · subst h1; simp

lemma processFrom_stateOk : ∀ (rs : List ActionRecord) (s : Settings)
    (st st' : EngineState), StateOk st → processFrom s st rs = Except.ok st' →
    StateOk st' := by
  intro rs
  induction rs with
  | nil =>
      intro s st st' hok h
      simp only [processFrom] at h
      injection h with h
      subst h
      exact hok
  | cons r rs ih =>
      intro s st st' hok h
      simp only [processFrom] at h
      cases hp : processRecord s st r with
      | error e => rw [hp] at h; cases h
      | ok st1 =>
          rw [hp] at h
          exact ih s st1 st' (processRecord_stateOk hok hp) h

lemma initState_ok : StateOk initState :=
  ⟨fun p hp => absurd hp (List.not_mem_nil p), fun tx htx => absurd htx (List.not_mem_nil tx)⟩

lemma processAll_stateOk {s : Settings} {rs : List ActionRecord} {st : EngineState}
    (h : processAll s rs = Except.ok st) : StateOk st :=
  processFrom_stateOk rs s initState st initState_ok h

/-- C1: for every run of the costing engine, every disposal Transaction to
which the Like-Kind Rule was not applied (its like-kind flag is false) has
its recorded realized gain/loss equal to total proceeds minus total cost
basis, exactly — rational arithmetic has no rounding drift. -/
theorem C1_gain_loss_identity : ∀ (s : Settings) (rs : List ActionRecord)
    (st : EngineState), processAll s rs = Except.ok st →
    ∀ tx ∈ st.transactions, tx.is_like_kind = false →
      tx.gain_loss = tx.proceeds - tx.cost_basis := by
  intro s rs st h tx htx _
  exact (processAll_stateOk h).2 tx htx

/-- C2: for every account, after processing any batch of ActionRecords the
sum of remaining quantities over the account's lots equals the account's
running balance; since the state after each engine operation on a stream is
exactly `processAll` of the prefix consumed so far, this holds at every
point during processing. -/
theorem C2_lot_sum_equals_balance : ∀ (s : Settings) (rs : List ActionRecord)
    (st : EngineState), processAll s rs = Except.ok st →
    ∀ p ∈ st.ledger, sumRemaining p.2 = p.2.balance := by
  intro s rs st h p hp
  exact (processAll_stateOk h).1 p hp

/-- A small concrete run shared by the witnesses: buy 2 BTC (currency 1)
for 100, then trade 1 BTC for 10 ETH (currency 2) worth 60, under the
like-kind cutoff (date 2 is before cutoff 10, both legs crypto). -/
def demoSettings : Settings :=
  { home_currency := 0, lk_cutoff_date := some 10,
    method := CostingMethod.lifoByCreation }

def demoRecords : List ActionRecord :=
  [ActionRecord.acquire 1 1 2 100, ActionRecord.trade 2 1 1 2 10 60]

def demoTxA : Transaction :=
  { proceeds := 0, cost_basis := 0, gain_loss := 0, is_like_kind := false,
    movements := [{ lot_index := 0, quantity := 2, inflow := true }] }

def demoTxB : Transaction :=
  { proceeds := 60, cost_basis := 50, gain_loss := 10, is_like_kind := true,
    movements := [{ lot_index := 0, quantity := 1, inflow := false },
                  { lot_index := 0, quantity := 10, inflow := true }] }

def demoAcctBtc : Account :=
  { lots := [{ basis_date := 1, acquisition_date := 1, original_quantity := 2,
               remaining_quantity := 1, cost_basis := 100,
               is_like_kind_carryover := false }]
    balance := 1 }

def demoAcctEth : Account :=
  { lots := [{ basis_date := 1, acquisition_date := 2, original_quantity := 10,
               remaining_quantity := 10, cost_basis := 50,
               is_like_kind_carryover := true }]
    balance := 10 }

def demoFinal : EngineState :=
  { ledger := [(1, demoAcctBtc), (2, demoAcctEth)]
    lastDate := some 2
    transactions := [demoTxA, demoTxB] }

lemma demoRun : processAll demoSettings demoRecords = Except.ok demoFinal := by
  norm_num [processAll, processFrom, processRecord, chronologyOk, ActionRecord.date,
    getAccount, findAccount, emptyAccount, open_lot, selectLots, consumeLots, openLots,
    sortLe, insertLe, lotLe, disposalCostBasis, unitBasis, applyDepletions, deplete_lot,
    updateAccount, likeKindApplies, firstConsumedBasisDate, initState, demoSettings,
    demoRecords, demoFinal, demoTxA, demoTxB, demoAcctBtc, demoAcctEth, List.enum,
    List.enumFrom, List.filter, List.find?, List.get?]

theorem C1_gain_loss_identity_witness :
    demoTxA.gain_loss = demoTxA.proceeds - demoTxA.cost_basis :=
  C1_gain_loss_identity demoSettings demoRecords demoFinal demoRun demoTxA
    (by simp [demoFinal]) rfl

theorem C2_lot_sum_equals_balance_witness :
    sumRemaining demoAcctEth = demoAcctEth.balance :=
  C2_lot_sum_equals_balance demoSettings demoRecords demoFinal demoRun (2, demoAcctEth)
    (by simp [demoFinal])

/-- C3: applying a Movement through `deplete_lot` changes exactly the
targeted lot's `remaining_quantity` (by decrease) and the account balance:
the resulting lot list is the old one with only index `i` replaced by the
old lot with `remaining_quantity` lowered by the moved quantity (every
other field and every other lot unchanged), and
`0 ≤ remaining_quantity ≤ original_quantity` still holds afterwards. -/
theorem C3_lot_movement_invariants : ∀ (a : Account) (i : Nat) (q : ℚ) (l : Lot)
    (a' : Account), a.lots.get? i = some l → 0 ≤ q →
    l.remaining_quantity ≤ l.original_quantity →
    deplete_lot a i q = Except.ok a' →
    a' = { lots := a.lots.set i { l with remaining_quantity := l.remaining_quantity - q }
           balance := a.balance - q } ∧
    0 ≤ l.remaining_quantity - q ∧
    l.remaining_quantity - q ≤ l.original_quantity ∧
    l.remaining_quantity - q ≤ l.remaining_quantity := by
  intro a i q l a' hg hq hle h
  obtain ⟨l2, hg2, hlt, rfl⟩ := deplete_lot_ok h
  rw [hg] at hg2
  injection hg2 with hg2
  subst hg2
  have hql : q ≤ l.remaining_quantity := not_lt.mp hlt
  exact ⟨rfl, by linarith, by linarith, by linarith⟩

def c3Lot : Lot :=
  { basis_date := 1, acquisition_date := 1, original_quantity := 2,
    remaining_quantity := 2, cost_basis := 100, is_like_kind_carryover := false }

def c3Acct : Account := { lots := [c3Lot], balance := 2 }

def c3After : Account :=
  { lots := [{ basis_date := 1, acquisition_date := 1, original_quantity := 2,
               remaining_quantity := 1, cost_basis := 100,
               is_like_kind_carryover := false }]
    balance := 1 }

theorem C3_lot_movement_invariants_witness :
    (c3After = { lots := c3Acct.lots.set 0
                   { c3Lot with remaining_quantity := c3Lot.remaining_quantity - 1 }
                 balance := c3Acct.balance - 1 } ∧
     0 ≤ c3Lot.remaining_quantity - 1 ∧
     c3Lot.remaining_quantity - 1 ≤ c3Lot.original_quantity ∧
     c3Lot.remaining_quantity - 1 ≤ c3Lot.remaining_quantity) :=
  C3_lot_movement_invariants c3Acct 0 1 c3Lot c3After rfl (by norm_num)
    (by norm_num [c3Lot])
    (by norm_num [deplete_lot, c3Acct, c3Lot, c3After, List.get?, List.set])

/-- C7: an ActionRecord whose date precedes the previously processed
record's date makes the Costing Engine fail with the chronology violation
error; the step returns the error instead of a new state, so no lot,
movement, balance or transaction mutation happens for the offending
record. -/
theorem C7_chronology_violation : ∀ (s : Settings) (st : EngineState)
    (r : ActionRecord) (prev : Nat), st.lastDate = some prev → r.date < prev →
    processRecord s st r = Except.error Err.chronologyViolation := by
  intro s st r prev hl hd
  have hc : chronologyOk st r.date = false := by
    unfold chronologyOk
    rw [hl]
    simp only [decide_eq_false_iff_not]
    omega
  unfold processRecord
  rw [hc]
  simp

theorem C7_chronology_violation_witness :
    processRecord demoSettings demoFinal (ActionRecord.dispose 1 1 1 1) =
      Except.error Err.chronologyViolation :=
  C7_chronology_violation demoSettings demoFinal (ActionRecord.dispose 1 1 1 1) 2
    rfl (by norm_num [ActionRecord.date])

/-- C8: the costing-method selector takes exactly the values 1 through 4,
mapping 1 to LIFO by creation order, 2 to LIFO by basis date, 3 to FIFO by
creation order and 4 to FIFO by basis date; lot selection through a
selector value follows exactly the named method's sort-and-walk policy. -/
theorem C8_costing_method_selector :
    (∀ n : Nat, (invCostingMethodFromNat n).isSome = true ↔ (1 ≤ n ∧ n ≤ 4)) ∧
    invCostingMethodFromNat 1 = some CostingMethod.lifoByCreation ∧
    invCostingMethodFromNat 2 = some CostingMethod.lifoByBasisDate ∧
    invCostingMethodFromNat 3 = some CostingMethod.fifoByCreation ∧
    invCostingMethodFromNat 4 = some CostingMethod.fifoByBasisDate ∧
    ∀ (n : Nat) (m : CostingMethod) (a : Account) (q : ℚ),
      invCostingMethodFromNat n = some m →
      selectLotsBySelector n a q = consumeLots q (sortLe (lotLe m) (openLots a)) := by
  refine ⟨?_, rfl, rfl, rfl, rfl, ?_⟩
  · intro n
    match n with
    | 0 => simp [invCostingMethodFromNat]
    | 1 => simp [invCostingMethodFromNat]
    | 2 => simp [invCostingMethodFromNat]
    | 3 => simp [invCostingMethodFromNat]
    | 4 => simp [invCostingMethodFromNat]
    | (k + 5) =>
        have hnone : invCostingMethodFromNat (k + 5) = none := rfl
        rw [hnone]
        simp only [Option.isSome_none, Bool.false_eq_true, false_iff, not_and]
        omega
  · intro n m a q h
    simp [selectLotsBySelector, h, selectLots]

theorem C8_costing_method_selector_witness :
    selectLotsBySelector 2 emptyAccount 0 =
      consumeLots 0 (sortLe (lotLe CostingMethod.lifoByBasisDate) (openLots emptyAccount)) :=
  C8_costing_method_selector.2.2.2.2.2 2 CostingMethod.lifoByBasisDate emptyAccount 0 rfl

/-- C9: when import-and-processing of the ActionRecord batch fails with any
error, `main` propagates the error and aborts before the output phase runs:
the run yields the error and no output-step list, so export happens only
after the whole batch processed successfully. -/
theorem C9_no_output_on_failure : ∀ (s : Settings) (ms : MainSettings)
    (rs : List ActionRecord) (e : Err), processAll s rs = Except.error e →
    mainRun s ms rs = Except.error e := by
  intro s ms rs e h
  simp [mainRun, h]

def c9Records : List ActionRecord := [ActionRecord.dispose 1 1 1 5]

def c9Main : MainSettings := { should_export := true, print_menu := false }

theorem C9_no_output_on_failure_witness :
    mainRun demoSettings c9Main c9Records = Except.error Err.insufficientFunds :=
  C9_no_output_on_failure demoSettings c9Main c9Records Err.insufficientFunds
    (by norm_num [processAll, processFrom, processRecord, chronologyOk,
      ActionRecord.date, getAccount, findAccount, emptyAccount, selectLots,
      consumeLots, openLots, sortLe, insertLe, lotLe, initState, c9Records,
      demoSettings, List.enum, List.enumFrom, List.filter, List.find?])

/-- C10: when the print-menu flag is set, `main` forces the export-all flag
to false, so the automatic export-all step is skipped even when the
settings ask for export; the export-all step never appears among the run's
output steps. -/
theorem C10_print_menu_skips_export_all : ∀ b : Bool,
    Step.exportAll ∉ mainSteps { should_export := b, print_menu := true } := by
  intro b
  simp [mainSteps]

def c4LotFirst : Lot :=
  { basis_date := 1, acquisition_date := 1, original_quantity := 1,
    remaining_quantity := 1, cost_basis := 100, is_like_kind_carryover := false }

def c4LotSecond : Lot :=
  { basis_date := 2, acquisition_date := 2, original_quantity := 2,
    remaining_quantity := 2, cost_basis := 400, is_like_kind_carryover := false }

/-- The account of the spec's LIFO scenario: lots opened in order with
quantities 1.0 at unit basis 100 (total basis 100) and 2.0 at unit basis
200 (total basis 400). -/
def c4Acct : Account := { lots := [c4LotFirst, c4LotSecond], balance := 3 }

/-- C4 counterexample: with open lots of 1.0 at unit basis 100 and 2.0 at
unit basis 200 opened in that order, LIFO-by-creation-order satisfies a
disposal of 1.5 entirely from the second (most recently opened) lot, which
holds 2.0 ≥ 1.5: the selection is [(1, 1.5)] and not the claimed
[(1, 1.0), (0, 0.5)], and the resulting cost basis is 1.5 × 200 = 300,
not 250. -/
theorem C4_lifo_scenario_counterexample :
    selectLots CostingMethod.lifoByCreation c4Acct (3/2) = Except.ok [(1, 3/2)] ∧
    selectLots CostingMethod.lifoByCreation c4Acct (3/2) ≠
      Except.ok [(1, 1), (0, 1/2)] ∧
    disposalCostBasis c4Acct [(1, 3/2)] = 300 := by
  have hsel : selectLots CostingMethod.lifoByCreation c4Acct (3/2) =
      Except.ok [(1, 3/2)] := by
    norm_num [selectLots, consumeLots, openLots, sortLe, insertLe, lotLe, c4Acct,
      c4LotFirst, c4LotSecond, List.enum, List.enumFrom, List.filter]
  refine ⟨hsel, ?_, ?_⟩
  · rw [hsel]
    norm_num
  · norm_num [disposalCostBasis, c4Acct, c4LotFirst, c4LotSecond, unitBasis, List.get?]

/-- C4 amended: under LIFO-by-creation-order, for an account whose open
lots were opened in order with quantities 1.0 at unit basis 100 and 2.0 at
unit basis 200, disposing 1.5 units consumes 1.5 from the second (most
recently opened) lot, which still holds 2.0, and yields cost basis
1.5 × 200 = 300. -/
theorem C4_lifo_scenario_amended :
    selectLots CostingMethod.lifoByCreation c4Acct (3/2) = Except.ok [(1, 3/2)] ∧
    disposalCostBasis c4Acct [(1, 3/2)] = 300 := by
  constructor
  · norm_num [selectLots, consumeLots, openLots, sortLe, insertLe, lotLe, c4Acct,
      c4LotFirst, c4LotSecond, List.enum, List.enumFrom, List.filter]
  · norm_num [disposalCostBasis, c4Acct, c4LotFirst, c4LotSecond, unitBasis, List.get?]

lemma insertLe_perm {α : Type} (le : α → α → Bool) (a : α) :
    ∀ l : List α, List.Perm (insertLe le a l) (a :: l) := by
  intro l
  induction l with
  | nil => exact List.Perm.refl _
  | cons b bs ih =>
      simp only [insertLe]
      by_cases h : le a b = true
      · rw [if_pos h]
      · rw [if_neg h]
        exact List.Perm.trans (List.Perm.cons b ih) (List.Perm.swap a b bs)

lemma sortLe_perm {α : Type} (le : α → α → Bool) :
    ∀ l : List α, List.Perm (sortLe le l) l := by
  intro l
  induction l with
  | nil => exact List.Perm.refl _
  | cons a as ih =>
      simp only [sortLe]
      exact List.Perm.trans (insertLe_perm le a (sortLe le as)) (List.Perm.cons a ih)

lemma consumeLots_insufficient : ∀ (lots : List (Nat × Lot)) (need : ℚ),
    (∀ p ∈ lots, 0 ≤ p.2.remaining_quantity) →
    (lots.map (fun p => p.2.remaining_quantity)).sum < need →
    consumeLots need lots = Except.error Err.insufficientFunds := by
  intro lots
  induction lots with
  | nil =>
      intro need _ hsum
      simp only [List.map_nil, List.sum_nil] at hsum
      simp only [consumeLots]
      rw [if_neg (by linarith : ¬ need ≤ 0)]
  | cons p rest ih =>
      obtain ⟨i, l⟩ := p
      intro need hpos hsum
      simp only [List.map_cons, List.sum_cons] at hsum
      have hp0 : 0 ≤ l.remaining_quantity := hpos (i, l) (List.mem_cons_self _ _)
      have hrest0 : 0 ≤ (rest.map (fun p => p.2.remaining_quantity)).sum := by
        apply List.sum_nonneg
        intro x hx
        simp only [List.mem_map] at hx
        obtain ⟨r, hr, rfl⟩ := hx
        exact hpos r (List.mem_cons_of_mem _ hr)
      have hneed : ¬ need ≤ 0 := by simp only [not_le]; linarith
      have hmin : min l.remaining_quantity need = l.remaining_quantity :=
        min_eq_left (by linarith)
      simp only [consumeLots]
      rw [if_neg hneed, hmin,
        ih (need - l.remaining_quantity)
          (fun r hr => hpos r (List.mem_cons_of_mem _ hr)) (by linarith)]

lemma selectLots_insufficient {m : CostingMethod} {a : Account} {q : ℚ}
    (h : totalOpenQuantity a < q) :
    selectLots m a q = Except.error Err.insufficientFunds := by
  unfold selectLots
  apply consumeLots_insufficient
  · intro p hp
    have hp2 := (sortLe_perm (lotLe m) (openLots a)).mem_iff.mp hp
    unfold openLots at hp2
    have hfil := List.mem_filter.mp hp2
    exact le_of_lt (of_decide_eq_true hfil.2)
  · have hperm := ((sortLe_perm (lotLe m) (openLots a)).map
      (fun p => p.2.remaining_quantity)).sum_eq
    rw [hperm]
    exact h

/-- C5: a disposal of more than the account's total open-lot quantity
fails with the insufficient-funds error: the Lot Selector rejects the
request, and the engine step returns the error instead of producing a new
state, so no lot, balance or transaction is modified — the disposal is
all-or-nothing. -/
theorem C5_insufficient_funds_all_or_nothing : ∀ (s : Settings) (st : EngineState)
    (date cur : Nat) (q pr : ℚ), chronologyOk st date = true →
    totalOpenQuantity (getAccount st.ledger cur) < q →
    (selectLots s.method (getAccount st.ledger cur) q =
        Except.error Err.insufficientFunds ∧
      processRecord s st (ActionRecord.dispose date cur q pr) =
        Except.error Err.insufficientFunds) := by
  intro s st date cur q pr hc hq
  have hsel := selectLots_insufficient (m := s.method) hq
  refine ⟨hsel, ?_⟩
  simp only [processRecord, ActionRecord.date]
  rw [if_pos hc, hsel]

theorem C5_insufficient_funds_all_or_nothing_witness :
    (selectLots demoSettings.method (getAccount initState.ledger 1) 1 =
        Except.error Err.insufficientFunds ∧
      processRecord demoSettings initState (ActionRecord.dispose 1 1 1 5) =
        Except.error Err.insufficientFunds) :=
  C5_insufficient_funds_all_or_nothing demoSettings initState 1 1 1 5 rfl
    (by norm_num [totalOpenQuantity, openLots, getAccount, findAccount, initState,
      emptyAccount, List.enum, List.enumFrom, List.filter, List.find?])

/-- C6: a qualifying like-kind trade (record date on or before the cutoff,
both legs crypto-to-crypto) carries basis over instead of recognizing
gain: on success the receiving account's newly created (last) lot has the
disposal's consumed weighted basis as its cost basis, the first consumed
lot's basis date as its basis date (not the transaction date), and the
like-kind carryover flag set; the appended transaction is flagged
like-kind and is excluded from the realized gain/loss total. -/
theorem C6_like_kind_carryover : ∀ (s : Settings) (st : EngineState)
    (date outCur inCur : Nat) (outQty inQty v : ℚ) (pairs : List (Nat × ℚ))
    (a1 : Account) (st' : EngineState),
    chronologyOk st date = true →
    likeKindApplies s date outCur inCur = true →
    selectLots s.method (getAccount st.ledger outCur) outQty = Except.ok pairs →
    applyDepletions (getAccount st.ledger outCur) pairs = Except.ok a1 →
    ¬ inQty ≤ 0 →
    processRecord s st (ActionRecord.trade date outCur outQty inCur inQty v) =
      Except.ok st' →
    ((getAccount st'.ledger inCur).lots.getLast? = some
       { basis_date := firstConsumedBasisDate (getAccount st.ledger outCur) pairs date
         acquisition_date := date
         original_quantity := inQty
         remaining_quantity := inQty
         cost_basis := disposalCostBasis (getAccount st.ledger outCur) pairs
         is_like_kind_carryover := true } ∧
     realizedTotal st'.transactions = realizedTotal st.transactions) := by
  intro s st date outCur inCur outQty inQty v pairs a1 st' hc hlk hsel happ hq hrun
  simp only [processRecord, ActionRecord.date] at hrun
  rw [if_pos hc, hsel] at hrun
  simp only [] at hrun
  rw [happ] at hrun
  simp only [hlk, eq_self_iff_true, if_true] at hrun
  have hb : open_lot (getAccount (updateAccount st.ledger outCur a1) inCur) date
      (firstConsumedBasisDate (getAccount st.ledger outCur) pairs date) inQty
      (disposalCostBasis (getAccount st.ledger outCur) pairs) true =
      Except.ok
        { lots := (getAccount (updateAccount st.ledger outCur a1) inCur).lots ++
            [{ basis_date := firstConsumedBasisDate (getAccount st.ledger outCur) pairs date
               acquisition_date := date
               original_quantity := inQty
               remaining_quantity := inQty
               cost_basis := disposalCostBasis (getAccount st.ledger outCur) pairs
               is_like_kind_carryover := true }]
          balance := (getAccount (updateAccount st.ledger outCur a1) inCur).balance + inQty } := by
    unfold open_lot
    rw [if_neg hq]
  rw [hb] at hrun
  injection hrun with hrun
  subst hrun
  constructor
  · simp only [getAccount, findAccount_updateAccount, Option.getD_some]
    exact List.getLast?_concat _
  · simp [realizedTotal, List.filter_append]

def c6BtcStart : Account :=
  { lots := [{ basis_date := 1, acquisition_date := 1, original_quantity := 2,
               remaining_quantity := 2, cost_basis := 100,
               is_like_kind_carryover := false }]
    balance := 2 }

/-- The engine state of the demo run after its first record (the BTC
acquisition), just before the like-kind trade. -/
def c6Mid : EngineState :=
  { ledger := [(1, c6BtcStart)], lastDate := some 1, transactions := [demoTxA] }

theorem C6_like_kind_carryover_witness :
    ((getAccount demoFinal.ledger 2).lots.getLast? = some
       { basis_date := firstConsumedBasisDate (getAccount c6Mid.ledger 1) [(0, 1)] 2
         acquisition_date := 2
         original_quantity := 10
         remaining_quantity := 10
         cost_basis := disposalCostBasis (getAccount c6Mid.ledger 1) [(0, 1)]
         is_like_kind_carryover := true } ∧
     realizedTotal demoFinal.transactions = realizedTotal c6Mid.transactions) :=
  C6_like_kind_carryover demoSettings c6Mid 2 1 2 1 10 60 [(0, 1)] demoAcctBtc
    demoFinal rfl rfl
    (by norm_num [selectLots, consumeLots, openLots, sortLe, insertLe, lotLe,
      getAccount, findAccount, c6Mid, c6BtcStart, List.enum, List.enumFrom,
      List.filter, List.find?])
    (by norm_num [applyDepletions, deplete_lot, getAccount, findAccount, c6Mid,
      c6BtcStart, demoAcctBtc, List.find?, List.get?, List.set])
    (by norm_num)
    (by norm_num [processRecord, chronologyOk, ActionRecord.date, getAccount,
      findAccount, emptyAccount, open_lot, selectLots, consumeLots, openLots,
      sortLe, insertLe, lotLe, disposalCostBasis, unitBasis, applyDepletions,
      deplete_lot, updateAccount, likeKindApplies, firstConsumedBasisDate,
      c6Mid, c6BtcStart, demoSettings, demoFinal, demoTxA, demoTxB, demoAcctBtc,
      demoAcctEth, List.enum, List.enumFrom, List.filter, List.find?, List.get?,
      List.set])

end Cryptools
